import Mathlib

/-!
Verification of the spaced-repetition scheduler and the flashcard review UI
of the Learning_agent repository.

The scheduler (`review`, `dueCards`) lives in the backend module
`spaced_repetition.py`, which is not part of the provided sources; it is
modelled here directly from the specification (SM-2 variant).  The frontend
review flow (`handleReview`, `loadData`, the rating buttons) is embedded from
`frontend/app/dashboard/flashcards/page.tsx` and the deck-detail page.

Floating-point ease factors are modelled as rationals: every quantity the
algorithm manipulates (multiples of 0.02 combined by +, *, max and round)
is exactly representable, and the spec's own worked examples are stated in
exact decimals.
-/

/-- Modelled from the spec: the per-flashcard scheduling record (spec §3,
backend `spaced_repetition.py` is not included in the sources).  Timestamps
are whole days represented as integers. -/
structure ReviewState where
  easeFactor : ℚ
  intervalDays : ℕ
  repetitionCount : ℕ
  dueDate : ℤ
  lastReviewedAt : Option ℤ
deriving Repr, DecidableEq

/-- Modelled from the spec: the scheduler's error taxonomy (spec §7); the only
failure mode is an out-of-range quality rating. -/
inductive SchedulerError where
  | invalidInput
deriving Repr, DecidableEq

/-- Modelled from the spec: the initial ReviewState of a freshly created card
(spec §3): easeFactor 2.5, interval 0, repetition count 0, due immediately. -/
def initialState (now : ℤ) : ReviewState :=
  { easeFactor := 5/2
    intervalDays := 0
    repetitionCount := 0
    dueDate := now
    lastReviewedAt := none }

/-- Modelled from the spec: the SM-2 ease-factor increment
`0.1 - (5 - quality) * (0.08 + (5 - quality) * 0.02)` (spec §4.1 step 2). -/
def sm2Delta (quality : ℤ) : ℚ :=
  1/10 - (5 - (quality : ℚ)) * (8/100 + (5 - (quality : ℚ)) * (2/100))

/-- Modelled from the spec: clamp the ease factor to the minimum of 1.3
(spec §3 and §4.1: "clamped to a minimum of 1.3, no upper clamp"). -/
def clampEase (x : ℚ) : ℚ :=
  if x < 13/10 then 13/10 else x

/-- Modelled from the spec: rounding to the nearest integer, halves up, used
for `round(previousIntervalDays * easeFactor)`; equal to Mathlib's `round`
(see `roundHalfUp_eq_round`). -/
def roundHalfUp (x : ℚ) : ℤ :=
  (x + 1/2).floor

/-- Modelled from the spec: the interval schedule for a successful review
(spec §4.1 step 2): the new repetition count is the old one plus one, and the
interval is 1, 6, or `round(previousIntervalDays * easeFactor)`. -/
def nextInterval (s : ReviewState) : ℕ :=
  if s.repetitionCount + 1 = 1 then 1
  else if s.repetitionCount + 1 = 2 then 6
  else (roundHalfUp ((s.intervalDays : ℚ) * s.easeFactor)).toNat

/-- Modelled from the spec: `review(state, quality, now)` (spec §4.1).
Quality outside {1,2,3,4} fails with `InvalidInputError`; quality < 3 resets
the schedule (repetition count 0, interval 1); quality ≥ 3 increments the
repetition count and advances the interval.  In both branches the ease factor
is updated by the SM-2 formula and clamped below at 1.3, `lastReviewedAt`
becomes `now` and `dueDate` becomes `now + intervalDays`. -/
def review (s : ReviewState) (quality : ℤ) (now : ℤ) :
    Except SchedulerError ReviewState :=
  if quality < 1 ∨ 4 < quality then .error .invalidInput
  else
    let ef := clampEase (s.easeFactor + sm2Delta quality)
    if quality < 3 then
      .ok { easeFactor := ef
            intervalDays := 1
            repetitionCount := 0
            dueDate := now + 1
            lastReviewedAt := some now }
    else
      let iv := nextInterval s
      .ok { easeFactor := ef
            intervalDays := iv
            repetitionCount := s.repetitionCount + 1
            dueDate := now + (iv : ℤ)
            lastReviewedAt := some now }

/-- Modelled from the spec: iterate `review` over a list of
(quality, timestamp) pairs, collecting every intermediate state. -/
def reviewSeq (s : ReviewState) : List (ℤ × ℤ) → Except SchedulerError (List ReviewState)
  | [] => .ok []
  | (q, t) :: rest =>
    match review s q t with
    | .error e => .error e
    | .ok s' =>
      match reviewSeq s' rest with
      | .error e => .error e
      | .ok tail => .ok (s' :: tail)

instance instDecEqExcept {ε α : Type} [DecidableEq ε] [DecidableEq α] :
    DecidableEq (Except ε α) := fun a b =>
  match a, b with
  | .ok x, .ok y => decidable_of_iff (x = y) (by simp)
  | .error x, .error y => decidable_of_iff (x = y) (by simp)
  | .ok _, .error _ => isFalse (by simp)
  | .error _, .ok _ => isFalse (by simp)

/-- Modelled from the spec: the ordering used by the due-cards query,
ascending `dueDate`. -/
def dueRel {α : Type} (a b : α × ReviewState) : Prop :=
  a.2.dueDate ≤ b.2.dueDate

instance {α : Type} : DecidableRel (dueRel (α := α)) := fun a b =>
  inferInstanceAs (Decidable (a.2.dueDate ≤ b.2.dueDate))

instance {α : Type} : IsTotal (α × ReviewState) dueRel :=
  ⟨fun a b => Int.le_total a.2.dueDate b.2.dueDate⟩

instance {α : Type} : IsTrans (α × ReviewState) dueRel :=
  ⟨fun _ _ _ hab hbc => Int.le_trans hab hbc⟩

/-- Modelled from the spec: the due cards with their states, filtered to
`dueDate ≤ now` and stably sorted by ascending `dueDate` (spec §4.1,
`dueCards`). -/
def duePairs {α : Type} (cards : List (α × ReviewState)) (now : ℤ) :
    List (α × ReviewState) :=
  (cards.filter fun c => c.2.dueDate ≤ now).insertionSort dueRel

/-- Modelled from the spec: `dueCards(cards, now, limit)` (spec §4.1): the
identifiers of the cards due at `now`, oldest-due first with ties broken by
input order, truncated to `limit` when provided. -/
def dueCards {α : Type} (cards : List (α × ReviewState)) (now : ℤ)
    (limit : Option ℕ) : List α :=
  let ids := (duePairs cards now).map Prod.fst
  match limit with
  | none => ids
  | some n => ids.take n

/-- A flashcard as held in the page's due-cards list; the review flow only
consumes its identifier (embedded from the `Flashcard` interface in
`frontend/app/dashboard/flashcards/page.tsx`). -/
structure Card where
  id : String
deriving Repr, DecidableEq

/-- The study-session counters displayed by the completion toast
`Review complete! correctCount/itemsReviewed`. -/
structure StudySession where
  itemsReviewed : ℕ
  correctCount : ℕ
deriving Repr, DecidableEq

/-- Modelled from the spec: `startSession` of the study store (`lib/store` is
not among the provided sources): a fresh session with zero counters. -/
def startSession : StudySession :=
  { itemsReviewed := 0, correctCount := 0 }

/-- Modelled from the spec: `updateSession n c` of the study store
(`lib/store` is not among the provided sources): records `n` further reviewed
items, `c` of them correct, as its call sites and the completion toast in the
flashcards page indicate. -/
def updateSession (n c : ℕ) (s : StudySession) : StudySession :=
  { itemsReviewed := s.itemsReviewed + n, correctCount := s.correctCount + c }

/-- The HTTP request body sent by `handleReview`:
`flashcardsApi.reviewCard(card.id, { quality_rating: quality })`
(`page.tsx` line 118, deck-detail page line 124). -/
structure ReviewRequestBody where
  quality_rating : ℤ
deriving Repr, DecidableEq

/-- The body built by `handleReview` for a chosen quality: the value is
forwarded unchanged as the `quality_rating` field. -/
def mkReviewBody (quality : ℤ) : ReviewRequestBody :=
  { quality_rating := quality }

/-- A review API call as issued by `handleReview`. -/
structure ReviewRequest where
  cardId : String
  body : ReviewRequestBody
deriving Repr, DecidableEq

/-- One rating button of the review UI (`page.tsx` lines 207-212). -/
structure RatingButton where
  label : String
  quality : ℤ
deriving Repr, DecidableEq

/-- The four rating buttons rendered by the review UI, embedded from
`page.tsx` lines 207-212; the deck-detail page renders the same four. -/
def ratingButtons : List RatingButton :=
  [{ label := "Again", quality := 1 },
   { label := "Hard", quality := 2 },
   { label := "Good", quality := 3 },
   { label := "Easy", quality := 4 }]

/-- The session update performed by `handleReview`:
`updateSession(1, quality >= 3 ? 1 : 0)` (`page.tsx` line 119). -/
def handleReviewSessionUpdate (quality : ℤ) (s : StudySession) : StudySession :=
  updateSession 1 (if 3 ≤ quality then 1 else 0) s

/-- The result-size cap passed by the flashcards page's `loadData`:
`flashcardsApi.getDueCards(20)` (`page.tsx` line 60). -/
def loadDataLimit : ℕ := 20

/-- The React state of the flashcards page touched by the review flow
(`page.tsx` lines 36-48), plus the log of review requests the page has sent
to the API. -/
structure PageState where
  dueList : List Card
  reviewMode : Bool
  currentCardIndex : ℕ
  showAnswer : Bool
  session : StudySession
  requests : List ReviewRequest
deriving Repr, DecidableEq

/-- The initial React state of the flashcards page (`page.tsx` lines 36-48). -/
def initialPageState : PageState :=
  { dueList := []
    reviewMode := false
    currentCardIndex := 0
    showAnswer := false
    session := startSession
    requests := [] }

/-- The user-visible events of the flashcards page: `loadData` (runs on mount
and after the final card, always outside review mode), `startReview`, a
rating-button press invoking `handleReview`, and the Exit Review button. -/
inductive PageEvent where
  | load (cards : List (String × ReviewState)) (now : ℤ)
  | start
  | review (quality : ℤ)
  | exitReview

/-- One step of the flashcards page, embedded from `loadData`, `startReview`,
`handleReview` and the Exit Review handler in `page.tsx`.  `handleReview`
reads the current card, posts the review request, updates the session, and
either advances to the next card (`currentCardIndex < dueCards.length - 1`)
or leaves review mode after the last one.  The rating buttons, hence the
review event, are only active in review mode. -/
def pageStep (ps : PageState) : PageEvent → PageState
  | .load cards now =>
    if ps.reviewMode then ps
    else { ps with
      dueList := (dueCards cards now (some loadDataLimit)).map Card.mk }
  | .start =>
    if ps.dueList.isEmpty then ps
    else { ps with
      reviewMode := true
      currentCardIndex := 0
      showAnswer := false
      session := startSession }
  | .review q =>
    if ps.reviewMode = false then ps
    else
      let card := ps.dueList.getD ps.currentCardIndex ({ id := "" } : Card)
      let ps' := { ps with
        requests :=
          ps.requests ++ [({ cardId := card.id, body := mkReviewBody q } : ReviewRequest)]
        session := handleReviewSessionUpdate q ps.session }
      if ps.currentCardIndex < ps.dueList.length - 1 then
        { ps' with currentCardIndex := ps.currentCardIndex + 1, showAnswer := false }
      else
        { ps' with reviewMode := false }
  | .exitReview => { ps with reviewMode := false }

/-- Run the flashcards page from its initial state over a list of events. -/
def pageRun (evs : List PageEvent) : PageState :=
  evs.foldl pageStep initialPageState

/-- An event respects the review UI when any rating it submits comes from one
of the four rating buttons. -/
def eventQualityOk : PageEvent → Prop
  | .review q => q ∈ ratingButtons.map RatingButton.quality
  | _ => True

example : review (initialState 0) 4 0 =
    .ok { easeFactor := 5/2, intervalDays := 1, repetitionCount := 1,
          dueDate := 1, lastReviewedAt := some 0 } := by
  norm_num [review, initialState, sm2Delta, clampEase, nextInterval]

example : review (initialState 0) 1 0 =
    .ok { easeFactor := 49/25, intervalDays := 1, repetitionCount := 0,
          dueDate := 1, lastReviewedAt := some 0 } := by
  norm_num [review, initialState, sm2Delta, clampEase, nextInterval]

example : review (initialState 0) 5 0 = .error .invalidInput := by decide

example : dueCards [(1, initialState 5), (2, initialState 0)] 3 none = [2] := by
  decide

/-! ### Helper lemmas about the scheduler -/

theorem clampEase_ge (x : ℚ) : 13/10 ≤ clampEase x := by
  unfold clampEase
  split_ifs with h
  · exact le_refl _
  · exact le_of_not_lt h

theorem clampEase_eq_max (x : ℚ) : clampEase x = max (13/10) x := by
  unfold clampEase
  rcases lt_or_le x (13/10) with h | h
  · rw [if_pos h, max_eq_left h.le]
  · rw [if_neg (not_lt.mpr h), max_eq_right h]

theorem ratFloor_eq_floor (q : ℚ) : q.floor = ⌊q⌋ := by
  rw [Rat.floor_def', Rat.floor_def]

theorem roundHalfUp_eq_round (x : ℚ) : roundHalfUp x = round x := by
  rw [roundHalfUp, ratFloor_eq_floor, round_eq]

theorem review_invalid {q : ℤ} (s : ReviewState) (now : ℤ) (h : q < 1 ∨ 4 < q) :
    review s q now = .error .invalidInput := by
  rw [review, if_pos h]

theorem review_fail {s : ReviewState} {q now : ℤ} (h1 : 1 ≤ q) (h3 : q < 3) :
    review s q now = .ok
      { easeFactor := clampEase (s.easeFactor + sm2Delta q)
        intervalDays := 1
        repetitionCount := 0
        dueDate := now + 1
        lastReviewedAt := some now } := by
  rw [review, if_neg (by omega)]
  exact if_pos h3

theorem review_success {s : ReviewState} {q now : ℤ} (h3 : 3 ≤ q) (h4 : q ≤ 4) :
    review s q now = .ok
      { easeFactor := clampEase (s.easeFactor + sm2Delta q)
        intervalDays := nextInterval s
        repetitionCount := s.repetitionCount + 1
        dueDate := now + (nextInterval s : ℤ)
        lastReviewedAt := some now } := by
  rw [review, if_neg (by omega)]
  exact if_neg (by omega)

theorem review_valid_ok {q : ℤ} (s : ReviewState) (now : ℤ) (h1 : 1 ≤ q) (h4 : q ≤ 4) :
    ∃ s', review s q now = .ok s' := by
  by_cases h3 : q < 3
  · exact ⟨_, review_fail h1 h3⟩
  · exact ⟨_, review_success (by omega) h4⟩

theorem review_ease_ge {s s' : ReviewState} {q now : ℤ} (h : review s q now = .ok s') :
    13/10 ≤ s'.easeFactor := by
  by_cases hv : q < 1 ∨ 4 < q
  · rw [review_invalid s now hv] at h
    cases h
  · push_neg at hv
    by_cases h3 : q < 3
    · rw [review_fail hv.1 h3] at h
      cases h
      exact clampEase_ge _
    · rw [review_success (by omega) hv.2] at h
      cases h
      exact clampEase_ge _

theorem review_ok_fields {s s' : ReviewState} {q now : ℤ} (h : review s q now = .ok s') :
    s'.lastReviewedAt = some now ∧ s'.dueDate = now + (s'.intervalDays : ℤ) := by
  by_cases hv : q < 1 ∨ 4 < q
  · rw [review_invalid s now hv] at h
    cases h
  · push_neg at hv
    by_cases h3 : q < 3
    · rw [review_fail hv.1 h3] at h
      cases h
      exact ⟨rfl, by norm_num⟩
    · rw [review_success (by omega) hv.2] at h
      cases h
      exact ⟨rfl, rfl⟩

theorem reviewSeq_ok (s : ReviewState) (revs : List (ℤ × ℤ))
    (hv : ∀ p ∈ revs, 1 ≤ p.1 ∧ p.1 ≤ 4) :
    ∃ states, reviewSeq s revs = .ok states ∧ ∀ s' ∈ states, 13/10 ≤ s'.easeFactor := by
  induction revs generalizing s with
  | nil => exact ⟨[], rfl, by simp⟩
  | cons p rest ih =>
    obtain ⟨q, t⟩ := p
    obtain ⟨h1, h4⟩ := hv (q, t) (List.mem_cons_self _ _)
    obtain ⟨s', hs'⟩ := review_valid_ok (q := q) s t h1 h4
    obtain ⟨tail, htail, hall⟩ := ih s' (fun p hp => hv p (List.mem_cons_of_mem _ hp))
    refine ⟨s' :: tail, ?_, ?_⟩
    · simp only [reviewSeq, hs', htail]
    · intro x hx
      rcases List.mem_cons.mp hx with hx | hx
      · subst hx
        exact review_ease_ge hs'
      · exact hall x hx

/-! ### Helper lemmas about the flashcards page -/

/-- Review-mode index invariant of the flashcards page: in review mode the
current-card index is inside the due-cards list. -/
def pageInv (ps : PageState) : Prop :=
  ps.reviewMode = true → ps.currentCardIndex < ps.dueList.length

theorem pageStep_inv {ps : PageState} (h : pageInv ps) (e : PageEvent) :
    pageInv (pageStep ps e) := by
  cases e with
  | load cards now =>
    by_cases hrm : ps.reviewMode
    · simpa [pageStep, hrm] using h
    · intro hmode
      simp [pageStep, hrm] at hmode
  | start =>
    by_cases he : ps.dueList.isEmpty
    · simpa [pageStep, he] using h
    · intro _
      have : 0 < ps.dueList.length := by
        cases hl : ps.dueList with
        | nil => rw [hl] at he; simp at he
        | cons a l => simp [hl]
      simpa [pageStep, he] using this
  | review q =>
    by_cases hrm : ps.reviewMode
    · have hlt : ps.currentCardIndex < ps.dueList.length := h hrm
      by_cases hadv : ps.currentCardIndex < ps.dueList.length - 1
      · intro _
        simp [pageStep, hrm, hadv]
        omega
      · intro hmode
        simp [pageStep, hrm, hadv] at hmode
    · simpa [pageStep, hrm] using h
  | exitReview =>
    intro hmode
    simp [pageStep] at hmode

theorem pageStep_len20 {ps : PageState} (h : ps.dueList.length ≤ 20)
    (e : PageEvent) : (pageStep ps e).dueList.length ≤ 20 := by
  cases e with
  | load cards now =>
    by_cases hrm : ps.reviewMode
    · simpa [pageStep, hrm] using h
    · have hl : (pageStep ps (.load cards now)).dueList =
          (dueCards cards now (some loadDataLimit)).map Card.mk := by
        simp [pageStep, hrm]
      rw [hl, List.length_map]
      simp only [dueCards, loadDataLimit]
      rw [List.length_take]
      exact min_le_left _ _
  | start =>
    by_cases he : ps.dueList.isEmpty
    · simpa [pageStep, he] using h
    · simpa [pageStep, he] using h
  | review q =>
    by_cases hrm : ps.reviewMode
    · by_cases hadv : ps.currentCardIndex < ps.dueList.length - 1
      · simpa [pageStep, hrm, hadv] using h
      · simpa [pageStep, hrm, hadv] using h
    · simpa [pageStep, hrm] using h
  | exitReview => simpa [pageStep] using h

theorem pageStep_requests {ps : PageState} {e : PageEvent} {r : ReviewRequest}
    (hr : r ∈ (pageStep ps e).requests) :
    r ∈ ps.requests ∨ ∃ q, e = .review q ∧ r.body = mkReviewBody q := by
  cases e with
  | load cards now =>
    by_cases hrm : ps.reviewMode
    · simp [pageStep, hrm] at hr
      exact Or.inl hr
    · simp [pageStep, hrm] at hr
      exact Or.inl hr
  | start =>
    by_cases he : ps.dueList.isEmpty
    · simp [pageStep, he] at hr
      exact Or.inl hr
    · simp [pageStep, he] at hr
      exact Or.inl hr
  | review q =>
    by_cases hrm : ps.reviewMode
    · by_cases hadv : ps.currentCardIndex < ps.dueList.length - 1
      · simp [pageStep, hrm, hadv] at hr
        rcases hr with hr | hr
        · exact Or.inl hr
        · exact Or.inr ⟨q, rfl, by rw [hr]⟩
      · simp [pageStep, hrm, hadv] at hr
        rcases hr with hr | hr
        · exact Or.inl hr
        · exact Or.inr ⟨q, rfl, by rw [hr]⟩
    · simp [pageStep, hrm] at hr
      exact Or.inl hr
  | exitReview =>
    simp [pageStep] at hr
    exact Or.inl hr

theorem foldl_pageStep_inv {P : PageState → Prop}
    (hstep : ∀ ps e, P ps → P (pageStep ps e)) :
    ∀ (evs : List PageEvent) (ps : PageState), P ps → P (List.foldl pageStep ps evs)
  | [], _, h => h
  | e :: evs, ps, h => foldl_pageStep_inv hstep evs _ (hstep ps e h)

theorem foldl_pageStep_requests :
    ∀ (evs : List PageEvent), (∀ e ∈ evs, eventQualityOk e) →
      ∀ (ps : PageState),
        (∀ r ∈ ps.requests, r.body.quality_rating ∈ ([1, 2, 3, 4] : List ℤ)) →
        ∀ r ∈ (List.foldl pageStep ps evs).requests,
          r.body.quality_rating ∈ ([1, 2, 3, 4] : List ℤ) := by
  intro evs
  induction evs with
  | nil =>
    intro _ ps h
    simpa using h
  | cons e evs ih =>
    intro hok ps h r hr
    refine ih (fun x hx => hok x (List.mem_cons_of_mem _ hx)) (pageStep ps e) ?_ r hr
    intro r' hr'
    rcases pageStep_requests hr' with h1 | ⟨q, he, hb⟩
    · exact h r' h1
    · have hq : eventQualityOk e := hok e (List.mem_cons_self _ _)
      rw [he] at hq
      rw [hb]
      simpa [ratingButtons, mkReviewBody, eventQualityOk] using hq

/-! ### Helper lemmas about the due-cards query -/

theorem duePairs_perm {α : Type} (cards : List (α × ReviewState)) (now : ℤ) :
    (duePairs cards now).Perm (cards.filter fun c => c.2.dueDate ≤ now) :=
  List.perm_insertionSort dueRel _

theorem duePairs_sorted {α : Type} (cards : List (α × ReviewState)) (now : ℤ) :
    (duePairs cards now).Sorted dueRel :=
  List.sorted_insertionSort dueRel _

theorem mem_duePairs {α : Type} {cards : List (α × ReviewState)} {now : ℤ}
    {p : α × ReviewState} (hp : p ∈ duePairs cards now) :
    p ∈ cards ∧ p.2.dueDate ≤ now := by
  rw [duePairs, List.mem_insertionSort] at hp
  have h := List.mem_filter.mp hp
  exact ⟨h.1, by simpa using h.2⟩

theorem mem_dueCards {α : Type} {cards : List (α × ReviewState)} {now : ℤ}
    {limit : Option ℕ} {x : α} (hx : x ∈ dueCards cards now limit) :
    ∃ st, (x, st) ∈ cards ∧ st.dueDate ≤ now := by
  have hx' : x ∈ (duePairs cards now).map Prod.fst := by
    cases limit with
    | none => simpa [dueCards] using hx
    | some n => exact List.take_subset _ _ (by simpa [dueCards] using hx)
  obtain ⟨p, hp, hpx⟩ := List.mem_map.mp hx'
  obtain ⟨hmem, hdue⟩ := mem_duePairs hp
  refine ⟨p.2, ?_, hdue⟩
  rw [← hpx, Prod.mk.eta]
  exact hmem

theorem dueCards_length_le {α : Type} (cards : List (α × ReviewState))
    (now : ℤ) (n : ℕ) : (dueCards cards now (some n)).length ≤ n := by
  simp only [dueCards]
  rw [List.length_take]
  exact min_le_left _ _

theorem dueCards_nil {α : Type} (now : ℤ) (limit : Option ℕ) :
    dueCards ([] : List (α × ReviewState)) now limit = [] := by
  cases limit <;> simp [dueCards, duePairs]

theorem nextInterval_third_ge {s : ReviewState} (hef : 13/10 ≤ s.easeFactor)
    (hiv : s.intervalDays = 6) (hrc : s.repetitionCount = 2) :
    6 ≤ nextInterval s := by
  simp only [nextInterval, hrc, hiv]
  norm_num
  have h6 : (6 : ℤ) ≤ roundHalfUp (6 * s.easeFactor) := by
    rw [roundHalfUp, Rat.le_floor]
    push_cast
    linarith
  omega

/-! ### Claim theorems: scheduler -/

/-- C2: for every state and quality 1 or 2, `review` succeeds with
repetitionCount 0 and intervalDays 1, the ease factor strictly decreases
before the 1.3 clamp, and the clamped value is the result; on the fresh card
quality 1 gives ease factor 1.96 = 49/25 and dueDate now + 1. -/
theorem review_failure_resets (s : ReviewState) (q now : ℤ) (hq : q = 1 ∨ q = 2) :
    (∃ s', review s q now = .ok s' ∧
      s'.repetitionCount = 0 ∧
      s'.intervalDays = 1 ∧
      s.easeFactor + sm2Delta q < s.easeFactor ∧
      s'.easeFactor = max (13/10) (s.easeFactor + sm2Delta q) ∧
      s'.dueDate = now + 1 ∧
      s'.lastReviewedAt = some now) ∧
    review (initialState now) 1 now = .ok
      { easeFactor := 49/25, intervalDays := 1, repetitionCount := 0,
        dueDate := now + 1, lastReviewedAt := some now } := by
  have h1 : 1 ≤ q := by rcases hq with h | h <;> omega
  have h3 : q < 3 := by rcases hq with h | h <;> omega
  constructor
  · refine ⟨_, review_fail h1 h3, rfl, rfl, ?_, clampEase_eq_max _, rfl, rfl⟩
    have : sm2Delta q < 0 := by
      rcases hq with h | h <;> subst h <;> norm_num [sm2Delta]
    linarith
  · rw [review_fail (by norm_num) (by norm_num)]
    norm_num [initialState, sm2Delta, clampEase]

/-- C3: from any start state with ease factor at least 1.3, any finite
sequence of valid reviews (qualities in {1,2,3,4}) succeeds, and every
intermediate and final state keeps easeFactor at least 1.3 and a non-negative
integer interval; this covers arbitrarily long runs of quality 1. -/
theorem ease_floor_invariant (s : ReviewState) (_hs : 13/10 ≤ s.easeFactor)
    (revs : List (ℤ × ℤ)) (hv : ∀ p ∈ revs, 1 ≤ p.1 ∧ p.1 ≤ 4) :
    ∃ states, reviewSeq s revs = .ok states ∧
      ∀ s' ∈ states, 13/10 ≤ s'.easeFactor ∧ 0 ≤ (s'.intervalDays : ℤ) := by
  obtain ⟨states, h1, h2⟩ := reviewSeq_ok s revs hv
  exact ⟨states, h1, fun s' hmem => ⟨h2 s' hmem, Int.natCast_nonneg _⟩⟩

/-- C4: the due-cards query returns only identifiers of cards due at `now`;
without a limit it returns exactly the due identifiers (a permutation of the
due sublist's identifiers); the underlying list is sorted by ascending
dueDate with ties kept in input order (stability); the result length honours
the limit; and the empty input yields the empty sequence.  The query is a
pure function of its arguments. -/
theorem dueCards_query_correct {α : Type} (cards : List (α × ReviewState))
    (now : ℤ) (limit : Option ℕ) :
    (∀ x ∈ dueCards cards now limit, ∃ st, (x, st) ∈ cards ∧ st.dueDate ≤ now) ∧
    (dueCards cards now none).Perm
      ((cards.filter fun c => c.2.dueDate ≤ now).map Prod.fst) ∧
    (duePairs cards now).Sorted dueRel ∧
    (∀ a b : α × ReviewState, dueRel a b →
      List.Sublist [a, b] (cards.filter fun c => c.2.dueDate ≤ now) →
      List.Sublist [a, b] (duePairs cards now)) ∧
    (∀ n, limit = some n → (dueCards cards now limit).length ≤ n) ∧
    dueCards ([] : List (α × ReviewState)) now limit = [] := by
  refine ⟨?_, ?_, duePairs_sorted cards now, ?_, ?_, dueCards_nil now limit⟩
  · intro x hx
    exact mem_dueCards hx
  · have h := duePairs_perm cards now
    simpa [dueCards] using h.map Prod.fst
  · intro a b hab hsub
    exact List.pair_sublist_insertionSort hab hsub
  · intro n hn
    subst hn
    exact dueCards_length_le cards now n

/-- C5: a quality rating outside {1,2,3,4} is rejected with
`InvalidInputError` and no state is produced (no silent clamping), while
every quality inside {1,2,3,4} is accepted. -/
theorem review_rejects_invalid_quality (s : ReviewState) (q now : ℤ) :
    (q < 1 ∨ 4 < q → review s q now = .error .invalidInput) ∧
    (1 ≤ q → q ≤ 4 → ∃ s', review s q now = .ok s') :=
  ⟨fun h => review_invalid s now h, fun h1 h4 => review_valid_ok s now h1 h4⟩

/-- C6: `review` is a pure function (the input state is a value and is never
mutated); it is deterministic, and every successful result has
`lastReviewedAt = now`, `dueDate = now + intervalDays` with a non-negative
interval, hence `dueDate ≥ now`. -/
theorem review_pure_deterministic (s : ReviewState) (q now : ℤ) :
    (∀ s₁ s₂, review s q now = .ok s₁ → review s q now = .ok s₂ → s₁ = s₂) ∧
    (∀ s', review s q now = .ok s' →
      s'.lastReviewedAt = some now ∧
      s'.dueDate = now + (s'.intervalDays : ℤ) ∧
      0 ≤ (s'.intervalDays : ℤ) ∧
      now ≤ s'.dueDate) := by
  constructor
  · intro s₁ s₂ h1 h2
    rw [h1] at h2
    exact Except.ok.inj h2
  · intro s' h
    obtain ⟨hl, hd⟩ := review_ok_fields h
    refine ⟨hl, hd, Int.natCast_nonneg _, ?_⟩
    rw [hd]
    omega

/-- C1 counterexample: the claim's worked example says the fresh card reviewed
with quality 4 reaches easeFactor 2.6, but the claim's own update formula
gives increment 0.1 - (5-4)*(0.08 + (5-4)*0.02) = 0 at quality 4, so the ease
factor stays 2.5. -/
theorem review_fresh_q4_ease_stays :
    review (initialState 0) 4 0 = .ok
      { easeFactor := 5/2, intervalDays := 1, repetitionCount := 1,
        dueDate := 1, lastReviewedAt := some 0 } ∧
    (5/2 : ℚ) ≠ 26/10 := by
  constructor
  · rw [review_success (by norm_num) (by norm_num)]
    norm_num [initialState, nextInterval, sm2Delta, clampEase]
  · norm_num

/-- C1 (amended): for quality 3 or 4 `review` increments repetitionCount and
sets intervalDays by the schedule 1 / 6 / round(previous interval * ease),
updating easeFactor by the SM-2 increment clamped below at 1.3; the fresh
card with quality 4 at time now yields repetitionCount 1, intervalDays 1,
dueDate now + 1 and easeFactor 2.5 (the increment at quality 4 is 0, not the
claimed 0.1); and across the first three successful reviews the intervals
1, 6, round(6·ease) are non-decreasing. -/
theorem review_success_schedule (s : ReviewState) (q now : ℤ)
    (hq : q = 3 ∨ q = 4) (t0 t1 t2 t3 q1 q2 q3 : ℤ) (s1 s2 s3 : ReviewState)
    (hq1 : q1 = 3 ∨ q1 = 4) (hq2 : q2 = 3 ∨ q2 = 4) (hq3 : q3 = 3 ∨ q3 = 4)
    (e1 : review (initialState t0) q1 t1 = .ok s1)
    (e2 : review s1 q2 t2 = .ok s2)
    (e3 : review s2 q3 t3 = .ok s3) :
    (∃ s', review s q now = .ok s' ∧
      s'.repetitionCount = s.repetitionCount + 1 ∧
      s'.intervalDays =
        (if s.repetitionCount + 1 = 1 then 1
         else if s.repetitionCount + 1 = 2 then 6
         else (round ((s.intervalDays : ℚ) * s.easeFactor)).toNat) ∧
      s'.easeFactor = max (13/10) (s.easeFactor + sm2Delta q) ∧
      s'.dueDate = now + (s'.intervalDays : ℤ)) ∧
    review (initialState now) 4 now = .ok
      { easeFactor := 5/2, intervalDays := 1, repetitionCount := 1,
        dueDate := now + 1, lastReviewedAt := some now } ∧
    (s1.intervalDays = 1 ∧ s2.intervalDays = 6 ∧
      s1.intervalDays ≤ s2.intervalDays ∧ s2.intervalDays ≤ s3.intervalDays) := by
  have hq3le : 3 ≤ q := by rcases hq with h | h <;> omega
  have hq4le : q ≤ 4 := by rcases hq with h | h <;> omega
  refine ⟨?_, ?_, ?_⟩
  · refine ⟨_, review_success hq3le hq4le, rfl, ?_, clampEase_eq_max _, rfl⟩
    simp only [nextInterval, roundHalfUp_eq_round]
  · rw [review_success (by norm_num) (by norm_num)]
    norm_num [initialState, nextInterval, sm2Delta, clampEase]
  · have h31 : 3 ≤ q1 := by rcases hq1 with h | h <;> omega
    have h41 : q1 ≤ 4 := by rcases hq1 with h | h <;> omega
    have h32 : 3 ≤ q2 := by rcases hq2 with h | h <;> omega
    have h42 : q2 ≤ 4 := by rcases hq2 with h | h <;> omega
    have h33 : 3 ≤ q3 := by rcases hq3 with h | h <;> omega
    have h43 : q3 ≤ 4 := by rcases hq3 with h | h <;> omega
    rw [review_success h31 h41] at e1
    have hs1 := (Except.ok.inj e1).symm
    have hs1iv : s1.intervalDays = 1 := by
      rw [hs1]
      simp [nextInterval, initialState]
    have hs1rc : s1.repetitionCount = 1 := by
      rw [hs1]
      simp [initialState]
    rw [review_success h32 h42] at e2
    have hs2 := (Except.ok.inj e2).symm
    have hs2iv : s2.intervalDays = 6 := by
      rw [hs2]
      simp [nextInterval, hs1rc]
    have hs2rc : s2.repetitionCount = 2 := by
      rw [hs2]
      simp [hs1rc]
    have hs2ef : 13/10 ≤ s2.easeFactor := by
      rw [hs2]
      exact clampEase_ge _
    rw [review_success h33 h43] at e3
    have hs3 := (Except.ok.inj e3).symm
    have hs3iv : 6 ≤ s3.intervalDays := by
      rw [hs3]
      simpa using nextInterval_third_ge hs2ef hs2iv hs2rc
    exact ⟨hs1iv, hs2iv, by omega, by omega⟩

/-! ### Claim theorems: flashcards page -/

/-- C7: the review UI offers exactly the four ratings 1 "Again", 2 "Hard",
3 "Good", 4 "Easy"; `handleReview` forwards the chosen value unchanged as the
`quality_rating` body field; hence every request this UI produces carries a
quality rating in {1,2,3,4}. -/
theorem review_ui_quality_range :
    ratingButtons.map RatingButton.label = ["Again", "Hard", "Good", "Easy"] ∧
    ratingButtons.map RatingButton.quality = [1, 2, 3, 4] ∧
    (∀ q : ℤ, (mkReviewBody q).quality_rating = q) ∧
    (∀ evs : List PageEvent, (∀ e ∈ evs, eventQualityOk e) →
      ∀ r ∈ (pageRun evs).requests,
        r.body.quality_rating ∈ ([1, 2, 3, 4] : List ℤ)) := by
  refine ⟨rfl, rfl, fun _ => rfl, ?_⟩
  intro evs hok r hr
  rw [pageRun] at hr
  exact foldl_pageStep_requests evs hok initialPageState
    (by simp [initialPageState]) r hr

/-- C8: `loadData` requests the due cards with the literal cap 20, and the
due-card list held (hence displayed and reviewed) by the flashcards page
never exceeds 20 cards, in any reachable page state. -/
theorem due_list_capped_at_20 :
    loadDataLimit = 20 ∧
    (∀ (cards : List (String × ReviewState)) (now : ℤ),
      (dueCards cards now (some loadDataLimit)).length ≤ 20) ∧
    (∀ evs : List PageEvent, (pageRun evs).dueList.length ≤ 20) := by
  refine ⟨rfl, ?_, ?_⟩
  · intro cards now
    exact dueCards_length_le cards now loadDataLimit
  · intro evs
    rw [pageRun]
    exact foldl_pageStep_inv (P := fun ps => ps.dueList.length ≤ 20)
      (fun _ e h => pageStep_len20 h e) evs
      initialPageState (by simp [initialPageState])

/-- C9: in every reachable state of the flashcards page, review mode implies
the current-card index is strictly below the length of the due-cards list, so
`handleReview`'s read of the current card never goes out of bounds. -/
theorem review_index_in_bounds (evs : List PageEvent)
    (hmode : (pageRun evs).reviewMode = true) :
    (pageRun evs).currentCardIndex < (pageRun evs).dueList.length := by
  have hinv : pageInv (pageRun evs) := by
    rw [pageRun]
    exact foldl_pageStep_inv (P := pageInv) (fun _ e h => pageStep_inv h e) evs
      initialPageState (by intro h; simp [initialPageState] at h)
  exact hinv hmode

theorem foldl_session_items (s : StudySession) (qs : List ℤ) :
    (qs.foldl (fun ses x => handleReviewSessionUpdate x ses) s).itemsReviewed
      = s.itemsReviewed + qs.length := by
  induction qs generalizing s with
  | nil => simp
  | cons x xs ih =>
    simp only [List.foldl_cons, List.length_cons, ih]
    simp [handleReviewSessionUpdate, updateSession]
    omega

theorem foldl_session_correct (s : StudySession) (qs : List ℤ)
    (hqs : ∀ x ∈ qs, x = 1 ∨ x = 2 ∨ x = 3 ∨ x = 4) :
    (qs.foldl (fun ses x => handleReviewSessionUpdate x ses) s).correctCount
      = s.correctCount + qs.countP (fun x => decide (x = 3 ∨ x = 4)) := by
  induction qs generalizing s with
  | nil => simp
  | cons x xs ih =>
    have hx := hqs x (List.mem_cons_self _ _)
    simp only [List.foldl_cons, List.countP_cons]
    rw [ih _ (fun y hy => hqs y (List.mem_cons_of_mem _ hy))]
    rcases hx with h | h | h | h <;> subst h <;>
      simp [handleReviewSessionUpdate, updateSession] <;> omega

/-- C10: each `handleReview` submission updates the session with exactly one
reviewed item, counted correct exactly for qualities 3 and 4
(`updateSession(1, quality >= 3 ? 1 : 0)`); over any run of button qualities
the session's correct count grows by the number of reviews rated 3 or 4 and
the reviewed count by the number of reviews. -/
theorem session_counts_reviews (q : ℤ) (s : StudySession) (qs : List ℤ)
    (hqs : ∀ x ∈ qs, x = 1 ∨ x = 2 ∨ x = 3 ∨ x = 4) :
    ((q = 3 ∨ q = 4) → handleReviewSessionUpdate q s = updateSession 1 1 s) ∧
    ((q = 1 ∨ q = 2) → handleReviewSessionUpdate q s = updateSession 1 0 s) ∧
    (qs.foldl (fun ses x => handleReviewSessionUpdate x ses) s).itemsReviewed
      = s.itemsReviewed + qs.length ∧
    (qs.foldl (fun ses x => handleReviewSessionUpdate x ses) s).correctCount
      = s.correctCount + qs.countP (fun x => decide (x = 3 ∨ x = 4)) := by
  refine ⟨?_, ?_, foldl_session_items s qs, foldl_session_correct s qs hqs⟩
  · intro h
    rcases h with h | h <;> subst h <;>
      simp [handleReviewSessionUpdate]
  · intro h
    rcases h with h | h <;> subst h <;>
      simp [handleReviewSessionUpdate]

/-! ### Witnesses -/

/-- Witness for C1: quality 3 then 4 then 3 from the fresh card at time 0
gives intervals 1, 6, 14 and the fresh quality-4 review keeps ease 2.5. -/
theorem review_success_schedule_witness :
    (∃ s', review (initialState 0) 3 0 = Except.ok s' ∧
      s'.repetitionCount = (initialState 0).repetitionCount + 1 ∧
      s'.intervalDays =
        (if (initialState 0).repetitionCount + 1 = 1 then 1
         else if (initialState 0).repetitionCount + 1 = 2 then 6
         else (round (((initialState 0).intervalDays : ℚ) *
            (initialState 0).easeFactor)).toNat) ∧
      s'.easeFactor = max (13/10) ((initialState 0).easeFactor + sm2Delta 3) ∧
      s'.dueDate = 0 + (s'.intervalDays : ℤ)) ∧
    review (initialState 0) 4 0 = Except.ok
      { easeFactor := 5/2, intervalDays := 1, repetitionCount := 1,
        dueDate := 0 + 1, lastReviewedAt := some 0 } ∧
    (({ easeFactor := 59/25, intervalDays := 1, repetitionCount := 1,
          dueDate := 1, lastReviewedAt := some 0 } : ReviewState).intervalDays = 1 ∧
     ({ easeFactor := 59/25, intervalDays := 6, repetitionCount := 2,
          dueDate := 6, lastReviewedAt := some 0 } : ReviewState).intervalDays = 6 ∧
     ({ easeFactor := 59/25, intervalDays := 1, repetitionCount := 1,
          dueDate := 1, lastReviewedAt := some 0 } : ReviewState).intervalDays ≤
       ({ easeFactor := 59/25, intervalDays := 6, repetitionCount := 2,
            dueDate := 6, lastReviewedAt := some 0 } : ReviewState).intervalDays ∧
     ({ easeFactor := 59/25, intervalDays := 6, repetitionCount := 2,
          dueDate := 6, lastReviewedAt := some 0 } : ReviewState).intervalDays ≤
       ({ easeFactor := 111/50, intervalDays := 14, repetitionCount := 3,
            dueDate := 14, lastReviewedAt := some 0 } : ReviewState).intervalDays) := by
  have e1 : review (initialState 0) 3 0 = Except.ok
      { easeFactor := 59/25, intervalDays := 1, repetitionCount := 1,
        dueDate := 1, lastReviewedAt := some 0 } := by
    rw [review_success (by norm_num) (by norm_num)]
    norm_num [initialState, nextInterval, sm2Delta, clampEase]
  have e2 : review
      ({ easeFactor := 59/25, intervalDays := 1, repetitionCount := 1,
         dueDate := 1, lastReviewedAt := some 0 } : ReviewState) 4 0 = Except.ok
      { easeFactor := 59/25, intervalDays := 6, repetitionCount := 2,
        dueDate := 6, lastReviewedAt := some 0 } := by
    rw [review_success (by norm_num) (by norm_num)]
    norm_num [nextInterval, sm2Delta, clampEase]
  have e3 : review
      ({ easeFactor := 59/25, intervalDays := 6, repetitionCount := 2,
         dueDate := 6, lastReviewedAt := some 0 } : ReviewState) 3 0 = Except.ok
      { easeFactor := 111/50, intervalDays := 14, repetitionCount := 3,
        dueDate := 14, lastReviewedAt := some 0 } := by
    rw [review_success (by norm_num) (by norm_num)]
    norm_num [nextInterval, sm2Delta, clampEase, roundHalfUp, Rat.floor_def']
    rfl
  exact review_success_schedule (initialState 0) 3 0 (Or.inl rfl) 0 0 0 0 3 4 3
    _ _ _ (Or.inl rfl) (Or.inr rfl) (Or.inl rfl) e1 e2 e3

/-- Witness for C2: quality 2 on the fresh card at time 0. -/
theorem review_failure_resets_witness :
    (∃ s', review (initialState 0) 2 0 = Except.ok s' ∧
      s'.repetitionCount = 0 ∧
      s'.intervalDays = 1 ∧
      (initialState 0).easeFactor + sm2Delta 2 < (initialState 0).easeFactor ∧
      s'.easeFactor = max (13/10) ((initialState 0).easeFactor + sm2Delta 2) ∧
      s'.dueDate = 0 + 1 ∧
      s'.lastReviewedAt = some 0) ∧
    review (initialState 0) 1 0 = Except.ok
      { easeFactor := 49/25, intervalDays := 1, repetitionCount := 0,
        dueDate := 0 + 1, lastReviewedAt := some 0 } :=
  review_failure_resets (initialState 0) 2 0 (Or.inr rfl)

/-- Witness for C3: two quality-1 reviews from the fresh card. -/
theorem ease_floor_invariant_witness :
    13/10 ≤ (initialState 0).easeFactor ∧
    (∀ p ∈ ([((1:ℤ), (0:ℤ)), (1, 1)] : List (ℤ × ℤ)), 1 ≤ p.1 ∧ p.1 ≤ 4) ∧
    ∃ states, reviewSeq (initialState 0) [((1:ℤ), (0:ℤ)), (1, 1)] = .ok states ∧
      ∀ s' ∈ states, 13/10 ≤ s'.easeFactor ∧ 0 ≤ (s'.intervalDays : ℤ) := by
  refine ⟨by norm_num [initialState], by decide, ?_⟩
  exact ease_floor_invariant (initialState 0) (by norm_num [initialState])
    [((1:ℤ), (0:ℤ)), (1, 1)] (by decide)

/-- Witness for C4: a two-card set at time 3 with limit 1. -/
theorem dueCards_query_correct_witness :
    (∀ x ∈ dueCards [((1:ℕ), initialState 5), (2, initialState 0)] 3 (some 1),
      ∃ st, (x, st) ∈ [((1:ℕ), initialState 5), (2, initialState 0)] ∧
        st.dueDate ≤ 3) ∧
    (dueCards [((1:ℕ), initialState 5), (2, initialState 0)] 3 (some 1)).length ≤ 1 ∧
    dueCards ([] : List (ℕ × ReviewState)) 3 (some 1) = [] := by
  obtain ⟨h1, _, _, _, h5, h6⟩ :=
    dueCards_query_correct [((1:ℕ), initialState 5), (2, initialState 0)] 3 (some 1)
  exact ⟨h1, h5 1 rfl, h6⟩

/-- Witness for C5: qualities 0 and 5 are rejected, quality 3 accepted. -/
theorem review_rejects_invalid_quality_witness :
    review (initialState 0) 0 0 = Except.error SchedulerError.invalidInput ∧
    review (initialState 0) 5 0 = Except.error SchedulerError.invalidInput ∧
    ∃ s', review (initialState 0) 3 0 = Except.ok s' :=
  ⟨(review_rejects_invalid_quality (initialState 0) 0 0).1 (Or.inl (by norm_num)),
   (review_rejects_invalid_quality (initialState 0) 5 0).1 (Or.inr (by norm_num)),
   (review_rejects_invalid_quality (initialState 0) 3 0).2 (by norm_num) (by norm_num)⟩

/-- Witness for C6: the concrete quality-2 result at time 0. -/
theorem review_pure_deterministic_witness :
    review (initialState 0) 2 0 = Except.ok
      { easeFactor := 109/50, intervalDays := 1, repetitionCount := 0,
        dueDate := 1, lastReviewedAt := some 0 } ∧
    ({ easeFactor := 109/50, intervalDays := 1, repetitionCount := 0,
       dueDate := 1, lastReviewedAt := some 0 } : ReviewState).lastReviewedAt
      = some 0 ∧
    ({ easeFactor := 109/50, intervalDays := 1, repetitionCount := 0,
       dueDate := 1, lastReviewedAt := some 0 } : ReviewState).dueDate =
      0 + (({ easeFactor := 109/50, intervalDays := 1, repetitionCount := 0,
                dueDate := 1, lastReviewedAt := some 0 } : ReviewState).intervalDays : ℤ) ∧
    (0:ℤ) ≤ (({ easeFactor := 109/50, intervalDays := 1, repetitionCount := 0,
                  dueDate := 1, lastReviewedAt := some 0 } : ReviewState).intervalDays : ℤ) ∧
    (0:ℤ) ≤ ({ easeFactor := 109/50, intervalDays := 1, repetitionCount := 0,
                 dueDate := 1, lastReviewedAt := some 0 } : ReviewState).dueDate := by
  have h : review (initialState 0) 2 0 = Except.ok
      { easeFactor := 109/50, intervalDays := 1, repetitionCount := 0,
        dueDate := 1, lastReviewedAt := some 0 } := by
    rw [review_fail (by norm_num) (by norm_num)]
    norm_num [initialState, sm2Delta, clampEase]
  obtain ⟨h1, h2, h3, h4⟩ := (review_pure_deterministic (initialState 0) 2 0).2 _ h
  exact ⟨h, h1, h2, h3, h4⟩

/-- Witness for C7: a session that loads one due card, starts review and
presses the Again (quality 1) button produces exactly one request, whose
quality rating is in {1,2,3,4}. -/
theorem review_ui_quality_range_witness :
    ({ cardId := "a", body := { quality_rating := 1 } } : ReviewRequest)
        ∈ (pageRun [PageEvent.load [("a", initialState 0)] 0, PageEvent.start,
            PageEvent.review 1]).requests ∧
    ({ cardId := "a", body := { quality_rating := 1 } } :
        ReviewRequest).body.quality_rating ∈ ([1, 2, 3, 4] : List ℤ) := by
  have hok : ∀ e ∈ ([PageEvent.load [("a", initialState 0)] 0, PageEvent.start,
      PageEvent.review 1] : List PageEvent), eventQualityOk e := by
    intro e he
    simp only [List.mem_cons, List.not_mem_nil, or_false] at he
    rcases he with rfl | rfl | rfl
    · trivial
    · trivial
    · show (1 : ℤ) ∈ ratingButtons.map RatingButton.quality
      decide
  have hmem : ({ cardId := "a", body := { quality_rating := 1 } } : ReviewRequest)
      ∈ (pageRun [PageEvent.load [("a", initialState 0)] 0, PageEvent.start,
          PageEvent.review 1]).requests := by
    have hreq : (pageRun [PageEvent.load [("a", initialState 0)] 0, PageEvent.start,
        PageEvent.review 1]).requests =
        [{ cardId := "a", body := { quality_rating := 1 } }] := rfl
    rw [hreq]
    exact List.mem_singleton.mpr rfl
  exact ⟨hmem, review_ui_quality_range.2.2.2 _ hok _ hmem⟩

/-- Witness for C8: one load of a single due card. -/
theorem due_list_capped_at_20_witness :
    loadDataLimit = 20 ∧
    (dueCards [(("a" : String), initialState 0)] 0 (some loadDataLimit)).length ≤ 20 ∧
    (pageRun [PageEvent.load [("a", initialState 0)] 0]).dueList.length ≤ 20 := by
  obtain ⟨h1, h2, h3⟩ := due_list_capped_at_20
  exact ⟨h1, h2 [("a", initialState 0)] 0, h3 [PageEvent.load [("a", initialState 0)] 0]⟩

/-- Witness for C9: after loading one due card and starting review, review
mode holds and the index 0 is inside the one-element due list. -/
theorem review_index_in_bounds_witness :
    (pageRun [PageEvent.load [("a", initialState 0)] 0,
        PageEvent.start]).reviewMode = true ∧
    (pageRun [PageEvent.load [("a", initialState 0)] 0,
        PageEvent.start]).currentCardIndex <
      (pageRun [PageEvent.load [("a", initialState 0)] 0,
        PageEvent.start]).dueList.length := by
  have hm : (pageRun [PageEvent.load [("a", initialState 0)] 0,
      PageEvent.start]).reviewMode = true := rfl
  exact ⟨hm, review_index_in_bounds _ hm⟩

/-- Witness for C10: quality 4 and the run of all four button qualities from
a fresh session (two of them rated at least 3). -/
theorem session_counts_reviews_witness :
    (((4:ℤ) = 3 ∨ (4:ℤ) = 4) →
      handleReviewSessionUpdate 4 startSession = updateSession 1 1 startSession) ∧
    (((4:ℤ) = 1 ∨ (4:ℤ) = 2) →
      handleReviewSessionUpdate 4 startSession = updateSession 1 0 startSession) ∧
    (([1, 2, 3, 4] : List ℤ).foldl
        (fun ses x => handleReviewSessionUpdate x ses) startSession).itemsReviewed
      = startSession.itemsReviewed + ([1, 2, 3, 4] : List ℤ).length ∧
    (([1, 2, 3, 4] : List ℤ).foldl
        (fun ses x => handleReviewSessionUpdate x ses) startSession).correctCount
      = startSession.correctCount +
          ([1, 2, 3, 4] : List ℤ).countP (fun x => decide (x = 3 ∨ x = 4)) :=
  session_counts_reviews 4 startSession [1, 2, 3, 4] (by decide)
